import Mathlib

/-!
Shallow embedding of `asm_compiler_vm.py`: a two-pass assembler for a small
symbolic instruction language and the stack-based virtual machine that runs
the resulting bytecode.  Source lines are modelled as lists of characters;
the Python string primitives used by the compiler (strip, split, splitlines,
upper, isalpha, int) are embedded for ASCII input, which is the alphabet the
assembly language uses.
-/

namespace AsmVM

/-- Characters Python counts as whitespace in str.split and str.strip (ASCII). -/
def isSpaceC (c : Char) : Bool :=
  c == ' ' || c == '\t' || c == '\n' || c == '\r' || c == '\x0b' || c == '\x0c'

/-- An ASCII word character: the character class of the label pattern. -/
def isWordC (c : Char) : Bool := c.isAlphanum || c == '_'

/-- Python str.isalpha on an ASCII token: nonempty and all alphabetic. -/
def isAlphaTok (s : List Char) : Bool := !s.isEmpty && s.all Char.isAlpha

/-- Python str.upper on an ASCII token. -/
def upperC (s : List Char) : List Char := s.map Char.toUpper

/-- Python str.strip: drop whitespace from both ends. -/
def stripC (s : List Char) : List Char :=
  ((s.dropWhile isSpaceC).reverse.dropWhile isSpaceC).reverse

/-- Python str.splitlines restricted to the newline and carriage-return
separators that can occur in ASCII source text. -/
def splitlinesL : List Char → List Char → List (List Char)
  | [], acc => if acc.isEmpty then [] else [acc.reverse]
  | '\r' :: '\n' :: rest, acc => acc.reverse :: splitlinesL rest []
  | '\n' :: rest, acc => acc.reverse :: splitlinesL rest []
  | '\r' :: rest, acc => acc.reverse :: splitlinesL rest []
  | c :: rest, acc => splitlinesL rest (c :: acc)

/-- Python str.split with no separator: split on runs of whitespace,
dropping empty tokens.  The accumulator holds the current token reversed. -/
def splitWsAux : List Char → List Char → List (List Char)
  | [], tok => if tok.isEmpty then [] else [tok.reverse]
  | c :: rest, tok =>
    if isSpaceC c then
      if tok.isEmpty then splitWsAux rest []
      else tok.reverse :: splitWsAux rest []
    else splitWsAux rest (c :: tok)

def splitWs (s : List Char) : List (List Char) := splitWsAux s []

/-- Digit tail of a Python integer literal: digits with single underscores
allowed only between digits. -/
def pyDigits : List Char → Nat → Option Nat
  | [], acc => some acc
  | '_' :: c :: rest, acc =>
    if c.isDigit then pyDigits rest (acc * 10 + (c.toNat - 48)) else none
  | ['_'], _ => none
  | c :: rest, acc =>
    if c.isDigit then pyDigits rest (acc * 10 + (c.toNat - 48)) else none

/-- Unsigned part of a Python integer literal: must start with a digit. -/
def pyDigitsStart : List Char → Option Nat
  | [] => none
  | c :: rest => if c.isDigit then pyDigits rest (c.toNat - 48) else none

/-- Python int() applied to a whitespace-free ASCII token: an optional sign
followed by digits, with single underscores allowed between digits. -/
def pyInt : List Char → Option Int
  | '+' :: rest => (pyDigitsStart rest).map Int.ofNat
  | '-' :: rest => (pyDigitsStart rest).map (fun n => -(Int.ofNat n))
  | s => (pyDigitsStart s).map Int.ofNat

/-- Lookup in an association list keyed by character lists; the first match
wins, so prepending a binding shadows older ones exactly as assignment to a
Python dict key overwrites it. -/
def alookup {α : Type} : List (List Char × α) → List Char → Option α
  | [], _ => none
  | (k, v) :: rest, key => if k = key then some v else alookup rest key

/-- The 15 opcodes of the instruction set. -/
inductive Instruction : Type
  | PUSH | POP | ADD | SUB | MUL | DIV | STORE | LOAD
  | JMP | JZ | JNZ | CALL | RET | PRINT | HALT
  deriving DecidableEq, Repr

/-- The mnemonic table built in AssemblyCompiler.__init__. -/
def instruction_map : List (List Char × Instruction) :=
  [ ("PUSH".data, Instruction.PUSH)
  , ("POP".data, Instruction.POP)
  , ("ADD".data, Instruction.ADD)
  , ("SUB".data, Instruction.SUB)
  , ("MUL".data, Instruction.MUL)
  , ("DIV".data, Instruction.DIV)
  , ("STORE".data, Instruction.STORE)
  , ("LOAD".data, Instruction.LOAD)
  , ("JMP".data, Instruction.JMP)
  , ("JZ".data, Instruction.JZ)
  , ("JNZ".data, Instruction.JNZ)
  , ("CALL".data, Instruction.CALL)
  , ("RET".data, Instruction.RET)
  , ("PRINT".data, Instruction.PRINT)
  , ("HALT".data, Instruction.HALT) ]

/-- Compile-time failures, one per distinct ValueError raised by the
compiler, each carrying the offending token. -/
inductive CompileError : Type
  | unknownInstruction (token : List Char)
  | invalidOperand (token : List Char)
  | undefinedLabel (name : List Char)
  deriving DecidableEq, Repr

/-- An operand slot before resolution: absent, a pending label reference
(a string in the Python tuple), or an integer literal. -/
inductive Operand : Type
  | absent
  | pending (s : List Char)
  | num (n : Int)
  deriving DecidableEq, Repr

/-- What AssemblyCompiler.parse_line produces for one line: nothing (blank
or comment), a label declaration (recorded as a side effect in Python), or
an instruction with its raw operand. -/
inductive Parsed : Type
  | blank
  | label (name : List Char)
  | instr (i : Instruction) (op : Operand)
  deriving DecidableEq, Repr

/-- AssemblyCompiler.parse_line.  The comment is stripped from the first
semicolon, the line trimmed; an empty result yields nothing.  The label
pattern matches at the start of the line: a maximal nonempty run of word
characters followed by a colon (anything after the colon is ignored, as
re.match only anchors at the start).  Otherwise the first whitespace token,
uppercased, must be a mnemonic, and a second token is either a pending
label reference (purely alphabetic) or an integer literal. -/
def parse_line (line : List Char) : Except CompileError Parsed :=
  let l := stripC (line.takeWhile (fun c => c ≠ ';'))
  if l.isEmpty then .ok .blank
  else
    let w := l.takeWhile isWordC
    if w.length ≥ 1 ∧ l[w.length]? = some ':' then .ok (.label w)
    else
      match splitWs l with
      | [] => .ok .blank
      | first :: restParts =>
        match alookup instruction_map (upperC first) with
        | Option.none => .error (.unknownInstruction (upperC first))
        | Option.some ins =>
          match restParts with
          | [] => .ok (.instr ins .absent)
          | opstr :: _ =>
            if isAlphaTok opstr then .ok (.instr ins (.pending opstr))
            else
              match pyInt opstr with
              | Option.some n => .ok (.instr ins (.num n))
              | Option.none => .error (.invalidOperand opstr)

/-- The state threaded through the collection pass: the label table and the
instructions collected so far. -/
structure Pass1State : Type where
  labels : List (List Char × Nat)
  instrs : List (Instruction × Operand)
  deriving DecidableEq, Repr

/-- One line of the collection pass: a label declaration binds the name to
the current instruction count; an instruction line is appended. -/
def pass1Step (st : Pass1State) (line : List Char) : Except CompileError Pass1State :=
  match parse_line line with
  | .error e => .error e
  | .ok .blank => .ok st
  | .ok (.label name) => .ok ⟨(name, st.instrs.length) :: st.labels, st.instrs⟩
  | .ok (.instr i op) => .ok ⟨st.labels, st.instrs ++ [(i, op)]⟩

/-- The collection pass over all source lines. -/
def pass1 : List (List Char) → Pass1State → Except CompileError Pass1State
  | [], st => .ok st
  | l :: ls, st =>
    match pass1Step st l with
    | .error e => .error e
    | .ok st2 => pass1 ls st2

/-- A fully resolved program: each operand is an optional integer. -/
abbrev Program : Type := List (Instruction × Option Int)

/-- Resolution of a single raw operand against the label table. -/
def resolveOp (labels : List (List Char × Nat)) : Operand → Except CompileError (Option Int)
  | .absent => .ok Option.none
  | .num n => .ok (Option.some n)
  | .pending s =>
    match alookup labels s with
    | Option.some idx => .ok (Option.some (Int.ofNat idx))
    | Option.none => .error (.undefinedLabel s)

/-- The resolution pass: replace every pending symbolic operand with the
index bound in the label table, failing on the first undefined label. -/
def pass2 (labels : List (List Char × Nat)) :
    List (Instruction × Operand) → Except CompileError Program
  | [] => .ok []
  | (i, op) :: rest =>
    match resolveOp labels op with
    | .error e => .error e
    | .ok r =>
      match pass2 labels rest with
      | .error e => .error e
      | .ok rs => .ok ((i, r) :: rs)

/-- AssemblyCompiler.compile: split into lines, run the collection pass,
then resolve label references. -/
def compileL (src : List Char) : Except CompileError Program :=
  match pass1 (splitlinesL src []) ⟨[], []⟩ with
  | .error e => .error e
  | .ok st => pass2 st.labels st.instrs

/-- Runtime faults, one per distinct exception the interpreter can raise. -/
inductive VMError : Type
  | stackUnderflow
  | divisionByZero
  | memoryOutOfBounds (address : Int)
  | callStackUnderflow
  | missingOperand
  | indexError
  deriving DecidableEq, Repr

/-- The mutable state of VirtualMachine: operand stack (head is the top),
linear memory, call stack, loaded program, instruction pointer (an Int,
since jump operands may be negative), the printed output collected so far,
and the running flag. -/
structure VMState : Type where
  stack : List Int
  memory : List Int
  callStack : List Int
  program : List (Instruction × Option Int)
  ip : Int
  out : List Int
  running : Bool
  deriving DecidableEq, Repr

/-- VirtualMachine.__init__ with the given memory size (default 1024). -/
def initVM (memory_size : Nat) : VMState :=
  { stack := [], memory := List.replicate memory_size 0, callStack := [],
    program := [], ip := 0, out := [], running := false }

/-- VirtualMachine.load_program: install the program, reset the instruction
pointer and both stacks; memory, output and the running flag are untouched. -/
def load_program (s : VMState) (p : List (Instruction × Option Int)) : VMState :=
  { s with program := p, ip := 0, stack := [], callStack := [] }

/-- Result of fetching program[ip] the way Python indexes a list: an index
at or past the end stops execution (checked first); otherwise a non-negative
index reads directly, a negative index reads from the end, and a negative
index below -len raises IndexError. -/
inductive Fetch : Type
  | atEnd
  | indexError
  | instr (i : Instruction × Option Int)
  deriving DecidableEq, Repr

def fetch (s : VMState) : Fetch :=
  let n : Int := s.program.length
  if n ≤ s.ip then .atEnd
  else if 0 ≤ s.ip then
    match s.program[s.ip.toNat]? with
    | Option.some ins => .instr ins
    | Option.none => .indexError
  else if 0 ≤ n + s.ip then
    match s.program[(n + s.ip).toNat]? with
    | Option.some ins => .instr ins
    | Option.none => .indexError
  else .indexError

/-- Outcome of one call to execute_instruction: continue, stop (end of
program or HALT, i.e. the method returned False), or a raised fault
together with the state at the moment of the raise. -/
inductive StepResult : Type
  | cont (s : VMState)
  | stop (s : VMState)
  | fault (e : VMError) (s : VMState)
  deriving DecidableEq, Repr

/-- The dispatch chain of execute_instruction, applied to the state whose
instruction pointer has already been advanced past the fetched instruction.
Pops happen in source order, so a state reached by a fault reflects exactly
the mutations made before the raise. -/
def dispatch (s : VMState) (instr : Instruction) (operand : Option Int) : StepResult :=
  match instr with
  | .PUSH =>
    match operand with
    | Option.none => .fault .missingOperand s
    | Option.some n => .cont { s with stack := n :: s.stack }
  | .POP =>
    match s.stack with
    | [] => .fault .stackUnderflow s
    | _ :: rest => .cont { s with stack := rest }
  | .ADD =>
    match s.stack with
    | b :: a :: rest => .cont { s with stack := (a + b) :: rest }
    | _ => .fault .stackUnderflow s
  | .SUB =>
    match s.stack with
    | b :: a :: rest => .cont { s with stack := (a - b) :: rest }
    | _ => .fault .stackUnderflow s
  | .MUL =>
    match s.stack with
    | b :: a :: rest => .cont { s with stack := (a * b) :: rest }
    | _ => .fault .stackUnderflow s
  | .DIV =>
    match s.stack with
    | b :: a :: rest =>
      if b = 0 then .fault .divisionByZero { s with stack := a :: rest }
      else .cont { s with stack := (Int.fdiv a b) :: rest }
    | _ => .fault .stackUnderflow s
  | .STORE =>
    match s.stack with
    | value :: address :: rest =>
      if address < 0 ∨ (s.memory.length : Int) ≤ address then
        .fault (.memoryOutOfBounds address) { s with stack := rest }
      else .cont { s with stack := rest, memory := s.memory.set address.toNat value }
    | _ => .fault .stackUnderflow s
  | .LOAD =>
    match s.stack with
    | address :: rest =>
      if address < 0 ∨ (s.memory.length : Int) ≤ address then
        .fault (.memoryOutOfBounds address) { s with stack := rest }
      else .cont { s with stack := s.memory.getD address.toNat 0 :: rest }
    | [] => .fault .stackUnderflow s
  | .JMP =>
    match operand with
    | Option.none => .fault .missingOperand s
    | Option.some a => .cont { s with ip := a }
  | .JZ =>
    match s.stack with
    | [] => .fault .stackUnderflow s
    | v :: rest =>
      match operand with
      | Option.some a =>
        if v = 0 then .cont { s with stack := rest, ip := a }
        else .cont { s with stack := rest }
      | Option.none => .cont { s with stack := rest }
  | .JNZ =>
    match s.stack with
    | [] => .fault .stackUnderflow s
    | v :: rest =>
      match operand with
      | Option.some a =>
        if v ≠ 0 then .cont { s with stack := rest, ip := a }
        else .cont { s with stack := rest }
      | Option.none => .cont { s with stack := rest }
  | .CALL =>
    match operand with
    | Option.none => .fault .missingOperand s
    | Option.some a => .cont { s with callStack := s.ip :: s.callStack, ip := a }
  | .RET =>
    match s.callStack with
    | [] => .fault .callStackUnderflow s
    | r :: rest => .cont { s with callStack := rest, ip := r }
  | .PRINT =>
    match s.stack with
    | [] => .fault .stackUnderflow s
    | v :: rest => .cont { s with stack := rest, out := s.out ++ [v] }
  | .HALT => .stop s

/-- VirtualMachine.execute_instruction: stop when the instruction pointer is
at or past the end; otherwise fetch program[ip], advance the pointer by one,
then dispatch. -/
def execute_instruction (s : VMState) : StepResult :=
  match fetch s with
  | .atEnd => .stop s
  | .indexError => .fault .indexError s
  | .instr (i, op) => dispatch { s with ip := s.ip + 1 } i op

/-- Terminal outcome of a run: halted normally, faulted (the exception was
caught and reported, not propagated), or the fuel bound was exhausted.  The
fuel is an artifact of the embedding; the Python loop is unbounded. -/
inductive RunResult : Type
  | halted (s : VMState)
  | faulted (e : VMError) (s : VMState)
  | outOfFuel (s : VMState)
  deriving DecidableEq, Repr

/-- The while loop of VirtualMachine.run: the running flag stays true until
the loop ends, and is cleared on both normal and faulting exit. -/
def runLoop : Nat → VMState → RunResult
  | 0, s => .outOfFuel s
  | fuel + 1, s =>
    match execute_instruction s with
    | .stop s2 => .halted { s2 with running := false }
    | .fault e s2 => .faulted e { s2 with running := false }
    | .cont s2 => runLoop fuel s2

/-- VirtualMachine.run: set the running flag, loop, and catch any fault. -/
def run_vm (fuel : Nat) (s : VMState) : RunResult :=
  runLoop fuel { s with running := true }

/-- Compile a source text, load it on a fresh default machine and run it;
the values PRINT emitted when the machine halts normally. -/
def emits (src : String) (fuel : Nat) : Option (List Int) :=
  match compileL src.data with
  | .error _ => Option.none
  | .ok p =>
    match run_vm fuel (load_program (initVM 1024) p) with
    | .halted s => Option.some s.out
    | _ => Option.none

/-- Compile a source text, load it on a fresh default machine and run it;
the fault the machine raised, when it faulted. -/
def faultOf (src : String) (fuel : Nat) : Option VMError :=
  match compileL src.data with
  | .error _ => Option.none
  | .ok p =>
    match run_vm fuel (load_program (initVM 1024) p) with
    | .faulted e _ => Option.some e
    | _ => Option.none

set_option maxRecDepth 100000

/-- C7: load_program installs the new program, sets the instruction pointer
to 0 and clears the operand and call stacks, and changes nothing else — in
particular the memory array is exactly the one the machine had before, so
memory contents persist across successive loads on the same machine. -/
theorem c7_load_resets_control_preserves_memory :
    (∀ (s : VMState) p, load_program s p =
      { stack := [], memory := s.memory, callStack := [], program := p,
        ip := 0, out := s.out, running := s.running }) ∧
    (∀ (s : VMState) p q, (load_program (load_program s p) q).memory = s.memory) :=
  ⟨fun _ _ => rfl, fun _ _ _ => rfl⟩

/-- C8: JZ and JNZ always pop one value, faulting StackUnderflow on an empty
stack; when the operand is absent the jump is a no-op and execution falls
through with no MissingOperand fault, whatever the popped value was; with an
operand present the popped value decides whether the pointer is overwritten. -/
theorem c8_jz_jnz_pop_and_tolerate_missing_operand :
    (∀ (s : VMState) op, dispatch { s with stack := [] } Instruction.JZ op =
      .fault .stackUnderflow { s with stack := [] }) ∧
    (∀ (s : VMState) op, dispatch { s with stack := [] } Instruction.JNZ op =
      .fault .stackUnderflow { s with stack := [] }) ∧
    (∀ (s : VMState) v rest, dispatch { s with stack := v :: rest } Instruction.JZ Option.none =
      .cont { s with stack := rest }) ∧
    (∀ (s : VMState) v rest, dispatch { s with stack := v :: rest } Instruction.JNZ Option.none =
      .cont { s with stack := rest }) ∧
    (∀ (s : VMState) v rest a, dispatch { s with stack := v :: rest } Instruction.JZ (Option.some a) =
      if v = 0 then .cont { s with stack := rest, ip := a }
      else .cont { s with stack := rest }) ∧
    (∀ (s : VMState) v rest a, dispatch { s with stack := v :: rest } Instruction.JNZ (Option.some a) =
      if v ≠ 0 then .cont { s with stack := rest, ip := a }
      else .cont { s with stack := rest }) :=
  ⟨fun _ _ => rfl, fun _ _ => rfl, fun _ _ _ => rfl, fun _ _ _ => rfl,
   fun _ _ _ _ => rfl, fun _ _ _ _ => rfl⟩

/-- C3: DIV pops the divisor b, then the dividend a, and pushes the floor of
a/b (rounding toward negative infinity, witnessed by 7/2 = 3 and -7/2 = -4);
it faults StackUnderflow when fewer than two items are on the stack and
DivisionByZero when the popped divisor is zero. -/
theorem c3_div_floor_underflow_and_zero :
    (∀ (s : VMState) a b rest op, dispatch { s with stack := b :: a :: rest } Instruction.DIV op =
      if b = 0 then .fault .divisionByZero { s with stack := a :: rest }
      else .cont { s with stack := (Int.fdiv a b) :: rest }) ∧
    (∀ (s : VMState) op, dispatch { s with stack := [] } Instruction.DIV op =
      .fault .stackUnderflow { s with stack := [] }) ∧
    (∀ (s : VMState) x op, dispatch { s with stack := [x] } Instruction.DIV op =
      .fault .stackUnderflow { s with stack := [x] }) ∧
    emits ("PUSH 7\nPUSH 2\nDIV\nPRINT\nHALT") 100 = some [3] ∧
    emits ("PUSH -7\nPUSH 2\nDIV\nPRINT\nHALT") 100 = some [-4] ∧
    faultOf ("PUSH 1\nPUSH 0\nDIV\nHALT") 100 = some .divisionByZero :=
  ⟨fun _ _ _ _ _ => rfl, fun _ _ => rfl, fun _ _ _ => rfl, rfl, rfl, rfl⟩

/-- C6: every opcode that consumes operand-stack items checks the required
depth first and faults StackUnderflow with the stack unchanged, and
STORE/LOAD fault MemoryOutOfBounds naming the popped address whenever it
falls outside the memory; a STORE to address 1024 on the default 1024-cell
machine faults with MemoryOutOfBounds(1024). -/
theorem c6_underflow_checks_and_memory_bounds :
    (∀ (s : VMState) op, dispatch { s with stack := [] } Instruction.POP op =
      .fault .stackUnderflow { s with stack := [] }) ∧
    (∀ (s : VMState) op, dispatch { s with stack := [] } Instruction.ADD op =
      .fault .stackUnderflow { s with stack := [] }) ∧
    (∀ (s : VMState) x op, dispatch { s with stack := [x] } Instruction.ADD op =
      .fault .stackUnderflow { s with stack := [x] }) ∧
    (∀ (s : VMState) op, dispatch { s with stack := [] } Instruction.SUB op =
      .fault .stackUnderflow { s with stack := [] }) ∧
    (∀ (s : VMState) x op, dispatch { s with stack := [x] } Instruction.SUB op =
      .fault .stackUnderflow { s with stack := [x] }) ∧
    (∀ (s : VMState) op, dispatch { s with stack := [] } Instruction.MUL op =
      .fault .stackUnderflow { s with stack := [] }) ∧
    (∀ (s : VMState) x op, dispatch { s with stack := [x] } Instruction.MUL op =
      .fault .stackUnderflow { s with stack := [x] }) ∧
    (∀ (s : VMState) op, dispatch { s with stack := [] } Instruction.DIV op =
      .fault .stackUnderflow { s with stack := [] }) ∧
    (∀ (s : VMState) x op, dispatch { s with stack := [x] } Instruction.DIV op =
      .fault .stackUnderflow { s with stack := [x] }) ∧
    (∀ (s : VMState) op, dispatch { s with stack := [] } Instruction.STORE op =
      .fault .stackUnderflow { s with stack := [] }) ∧
    (∀ (s : VMState) x op, dispatch { s with stack := [x] } Instruction.STORE op =
      .fault .stackUnderflow { s with stack := [x] }) ∧
    (∀ (s : VMState) op, dispatch { s with stack := [] } Instruction.LOAD op =
      .fault .stackUnderflow { s with stack := [] }) ∧
    (∀ (s : VMState) op, dispatch { s with stack := [] } Instruction.PRINT op =
      .fault .stackUnderflow { s with stack := [] }) ∧
    (∀ (s : VMState) op, dispatch { s with stack := [] } Instruction.JZ op =
      .fault .stackUnderflow { s with stack := [] }) ∧
    (∀ (s : VMState) op, dispatch { s with stack := [] } Instruction.JNZ op =
      .fault .stackUnderflow { s with stack := [] }) ∧
    faultOf ("ADD\nHALT") 100 = some .stackUnderflow ∧
    faultOf ("PUSH 1024\nPUSH 0\nSTORE\nHALT") 100 = some (.memoryOutOfBounds 1024) ∧
    (∀ (s : VMState) v a rest op, (a < 0 ∨ (s.memory.length : Int) ≤ a) →
      dispatch { s with stack := v :: a :: rest } Instruction.STORE op =
        .fault (.memoryOutOfBounds a) { s with stack := rest }) ∧
    (∀ (s : VMState) a rest op, (a < 0 ∨ (s.memory.length : Int) ≤ a) →
      dispatch { s with stack := a :: rest } Instruction.LOAD op =
        .fault (.memoryOutOfBounds a) { s with stack := rest }) := by
  refine ⟨fun _ _ => rfl, fun _ _ => rfl, fun _ _ _ => rfl, fun _ _ => rfl,
    fun _ _ _ => rfl, fun _ _ => rfl, fun _ _ _ => rfl, fun _ _ => rfl,
    fun _ _ _ => rfl, fun _ _ => rfl, fun _ _ _ => rfl, fun _ _ => rfl,
    fun _ _ => rfl, fun _ _ => rfl, fun _ _ => rfl, rfl, rfl, ?_, ?_⟩
  · intro s v a rest op h
    show (if a < 0 ∨ (s.memory.length : Int) ≤ a then _ else _) = _
    rw [if_pos h]
  · intro s a rest op h
    show (if a < 0 ∨ (s.memory.length : Int) ≤ a then _ else _) = _
    rw [if_pos h]

/-- C6 witness: STORE to address 100 and LOAD from address -1 on a machine
with 4 memory cells both fault MemoryOutOfBounds naming the address. -/
theorem c6_witness :
    dispatch { initVM 4 with stack := [5, 100] } Instruction.STORE Option.none =
      .fault (.memoryOutOfBounds 100) { initVM 4 with stack := [] } ∧
    dispatch { initVM 4 with stack := [-1] } Instruction.LOAD Option.none =
      .fault (.memoryOutOfBounds (-1)) { initVM 4 with stack := [] } :=
  ⟨c6_underflow_checks_and_memory_bounds.2.2.2.2.2.2.2.2.2.2.2.2.2.2.2.2.2.1
      (initVM 4) 5 100 [] Option.none (Or.inr (by decide)),
   c6_underflow_checks_and_memory_bounds.2.2.2.2.2.2.2.2.2.2.2.2.2.2.2.2.2.2
      (initVM 4) (-1) [] Option.none (Or.inl (by decide))⟩

/-- C5: a fault raised by a step terminates the run loop at once, the
machine ends in a Faulted result carrying that fault (with the running flag
cleared), and the fault is a returned value, never a propagated exception;
in particular PUSH 1; PUSH 0; DIV; HALT ends Faulted with DivisionByZero. -/
theorem c5_faults_terminate_run :
    (∀ fuel s e s2, execute_instruction s = .fault e s2 →
      runLoop (fuel + 1) s = .faulted e { s2 with running := false }) ∧
    faultOf ("PUSH 1\nPUSH 0\nDIV\nHALT") 100 = some .divisionByZero := by
  refine ⟨?_, rfl⟩
  intro fuel s e s2 h
  simp [runLoop, h]

/-- C5 witness: a one-instruction program whose single DIV underflows is
terminal for the run loop on its first step. -/
theorem c5_witness :
    runLoop 5 (load_program (initVM 0) [(Instruction.DIV, Option.none)]) =
      .faulted .stackUnderflow
        { load_program (initVM 0) [(Instruction.DIV, Option.none)] with
          ip := 1, running := false } :=
  c5_faults_terminate_run.1 4 (load_program (initVM 0) [(Instruction.DIV, Option.none)])
    .stackUnderflow
    { load_program (initVM 0) [(Instruction.DIV, Option.none)] with ip := 1 } rfl

/-- C2 counterexample: the five-line program of the claim, with `sub: PUSH 9`
on one line, does not emit 9.  The parser records the label and discards the
instruction after the colon, so the compiled program has only four
instructions and the call lands on PRINT with an empty stack: the run faults
with StackUnderflow instead of emitting 9 and halting. -/
theorem c2_counterexample :
    compileL (("CALL sub\nHALT\nsub: PUSH 9\nPRINT\nRET").data) =
      .ok [(Instruction.CALL, some 2), (Instruction.HALT, Option.none),
           (Instruction.PRINT, Option.none), (Instruction.RET, Option.none)] ∧
    emits ("CALL sub\nHALT\nsub: PUSH 9\nPRINT\nRET") 100 = Option.none ∧
    faultOf ("CALL sub\nHALT\nsub: PUSH 9\nPRINT\nRET") 100 = some .stackUnderflow :=
  ⟨rfl, rfl, rfl⟩

/-- C2 (amended): each step fetches the instruction at IP and advances IP by
one before dispatch; JMP and CALL operands are absolute indices assigned to
IP, CALL pushes the already-advanced IP and RET pops it back; and the
call/return program with the label declared on its own line emits exactly 9
and terminates via the HALT after the call returns. -/
theorem c2_fetch_advance_call_ret :
    (∀ (s : VMState) i op, 0 ≤ s.ip → s.program[s.ip.toNat]? = some (i, op) →
      execute_instruction s = dispatch { s with ip := s.ip + 1 } i op) ∧
    (∀ (s : VMState) a, dispatch s Instruction.JMP (Option.some a) =
      .cont { s with ip := a }) ∧
    (∀ (s : VMState) a, dispatch s Instruction.CALL (Option.some a) =
      .cont { s with callStack := s.ip :: s.callStack, ip := a }) ∧
    (∀ (s : VMState) r cs op, dispatch { s with callStack := r :: cs } Instruction.RET op =
      .cont { s with callStack := cs, ip := r }) ∧
    emits ("CALL sub\nHALT\nsub:\nPUSH 9\nPRINT\nRET") 100 = some [9] := by
  refine ⟨?_, fun _ _ => rfl, fun _ _ => rfl, fun _ _ _ _ => rfl, rfl⟩
  intro s i op h0 hget
  have hlt : s.ip.toNat < s.program.length := by
    by_contra hge
    push_neg at hge
    rw [List.getElem?_eq_none hge] at hget
    cases hget
  simp only [execute_instruction, fetch]
  rw [if_neg (by omega), if_pos h0, hget]

/-- C2 witness: on a machine whose single instruction is HALT, the first step
is exactly the dispatch of that instruction with the pointer advanced to 1. -/
theorem c2_witness :
    execute_instruction (load_program (initVM 0) [(Instruction.HALT, Option.none)]) =
      dispatch { load_program (initVM 0) [(Instruction.HALT, Option.none)] with ip := 1 }
        Instruction.HALT Option.none :=
  c2_fetch_advance_call_ret.1 (load_program (initVM 0) [(Instruction.HALT, Option.none)])
    Instruction.HALT Option.none (by decide) rfl

/-- C9: the end-of-program test only checks that IP is at or past the length,
so a negative IP does not stop execution; fetching with IP = -k (for
1 ≤ k ≤ length) retrieves the k-th instruction from the end of the program,
exactly like Python negative list indexing, as the concrete run of
PUSH 7; JMP -2; PRINT; HALT shows by printing 7 and halting. -/
theorem c9_negative_ip_wraps_to_end :
    (∀ (s : VMState), (s.program.length : Int) ≤ s.ip → execute_instruction s = .stop s) ∧
    (∀ (s : VMState), s.ip < (s.program.length : Int) → fetch s ≠ Fetch.atEnd) ∧
    (∀ (s : VMState) (k : Nat) ins, s.ip = -(k : Int) → 1 ≤ k → k ≤ s.program.length →
      s.program[s.program.length - k]? = some ins → fetch s = .instr ins) ∧
    emits ("PUSH 7\nJMP -2\nPRINT\nHALT") 100 = some [7] := by
  refine ⟨?_, ?_, ?_, rfl⟩
  · intro s h
    simp only [execute_instruction, fetch]
    rw [if_pos h]
  · intro s h hc
    simp only [fetch] at hc
    rw [if_neg (by omega)] at hc
    split at hc
    · split at hc <;> cases hc
    · split at hc
      · split at hc <;> cases hc
      · cases hc
  · intro s k ins hip h1 h2 hget
    simp only [fetch]
    rw [if_neg (by omega), if_neg (by omega), if_pos (by omega)]
    have he : ((s.program.length : Int) + s.ip).toNat = s.program.length - k := by omega
    rw [he, hget]

/-- C9 witness: with an empty program the machine stops at once, and with the
one-instruction program HALT and IP = -1 the fetch retrieves that HALT (the
first instruction from the end). -/
theorem c9_witness :
    execute_instruction (initVM 0) = .stop (initVM 0) ∧
    fetch { load_program (initVM 0) [(Instruction.HALT, Option.none)] with ip := -1 } =
      .instr (Instruction.HALT, Option.none) :=
  ⟨c9_negative_ip_wraps_to_end.1 (initVM 0) (by decide),
   c9_negative_ip_wraps_to_end.2.2.1
     { load_program (initVM 0) [(Instruction.HALT, Option.none)] with ip := -1 }
     1 (Instruction.HALT, Option.none) rfl (by decide) (by decide) rfl⟩

/-- Inversion for resolving a pending operand: success means the label table
bound the name, and the result is exactly the bound index. -/
theorem resolveOp_pending_ok {labels : List (List Char × Nat)} {s : List Char}
    {r : Option Int} (h : resolveOp labels (.pending s) = .ok r) :
    ∃ n, alookup labels s = some n ∧ r = some (Int.ofNat n) := by
  simp only [resolveOp] at h
  split at h
  · injection h with h
    subst h
    rename_i n hn
    exact ⟨n, hn, rfl⟩
  · cases h

/-- The resolution pass preserves length and resolves each slot pointwise. -/
theorem pass2_spec (labels : List (List Char × Nat)) :
    ∀ raw out, pass2 labels raw = .ok out →
      out.length = raw.length ∧
      ∀ (i : Nat) ins op, raw[i]? = some (ins, op) →
        ∃ r, resolveOp labels op = .ok r ∧ out[i]? = some (ins, r) := by
  intro raw
  induction raw with
  | nil =>
    intro out h
    simp only [pass2] at h
    injection h with h
    subst h
    refine ⟨rfl, ?_⟩
    intro i ins op hi
    simp at hi
  | cons hd rest ih =>
    intro out h
    obtain ⟨i0, op0⟩ := hd
    simp only [pass2] at h
    cases hr : resolveOp labels op0 with
    | error e => rw [hr] at h; cases h
    | ok r =>
      rw [hr] at h
      cases hp : pass2 labels rest with
      | error e => rw [hp] at h; cases h
      | ok rs =>
        rw [hp] at h
        injection h with h
        subst h
        obtain ⟨hlen, hidx⟩ := ih rs hp
        constructor
        · simp [hlen]
        · intro i ins op hi
          cases i with
          | zero =>
            simp only [List.getElem?_cons_zero, Option.some.injEq, Prod.mk.injEq] at hi
            obtain ⟨hi1, hi2⟩ := hi
            subst hi1
            subst hi2
            exact ⟨r, hr, by simp⟩
          | succ n =>
            simp only [List.getElem?_cons_succ] at hi ⊢
            exact hidx n ins op hi

/-- C1: a label declaration binds the name to the count of instructions
collected so far (the index of the next instruction to be emitted), and the
resolution pass replaces every pending symbolic operand with the index bound
in the final table — so any two references to one label, before or after its
declaration, resolve to the same index, while numeric and absent operands
pass through untouched. -/
theorem c1_label_binding_and_resolution :
    (∀ (st : Pass1State) line name, parse_line line = .ok (.label name) →
      pass1Step st line = .ok ⟨(name, st.instrs.length) :: st.labels, st.instrs⟩ ∧
      alookup ((name, st.instrs.length) :: st.labels) name = some st.instrs.length) ∧
    (∀ labels raw out, pass2 labels raw = .ok out →
      out.length = raw.length ∧
      (∀ (i : Nat) ins s, raw[i]? = some (ins, Operand.pending s) →
        ∃ n, alookup labels s = some n ∧ out[i]? = some (ins, some (Int.ofNat n))) ∧
      (∀ (i : Nat) ins, raw[i]? = some (ins, Operand.absent) → out[i]? = some (ins, Option.none)) ∧
      (∀ (i : Nat) ins m, raw[i]? = some (ins, Operand.num m) → out[i]? = some (ins, some m)) ∧
      (∀ (i j : Nat) insi insj s oi oj, raw[i]? = some (insi, Operand.pending s) →
        raw[j]? = some (insj, Operand.pending s) →
        out[i]? = some (insi, oi) → out[j]? = some (insj, oj) → oi = oj)) := by
  constructor
  · intro st line name h
    constructor
    · simp only [pass1Step, h]
    · simp [alookup]
  · intro labels raw out h
    obtain ⟨hlen, hidx⟩ := pass2_spec labels raw out h
    have hpend : ∀ (i : Nat) ins s, raw[i]? = some (ins, Operand.pending s) →
        ∃ n, alookup labels s = some n ∧ out[i]? = some (ins, some (Int.ofNat n)) := by
      intro i ins s hi
      obtain ⟨r, hr, ho⟩ := hidx i ins (Operand.pending s) hi
      obtain ⟨n, hn, rfl⟩ := resolveOp_pending_ok hr
      exact ⟨n, hn, ho⟩
    refine ⟨hlen, hpend, ?_, ?_, ?_⟩
    · intro i ins hi
      obtain ⟨r, hr, ho⟩ := hidx i ins Operand.absent hi
      simp only [resolveOp] at hr
      injection hr with hr
      subst hr
      exact ho
    · intro i ins m hi
      obtain ⟨r, hr, ho⟩ := hidx i ins (Operand.num m) hi
      simp only [resolveOp] at hr
      injection hr with hr
      subst hr
      exact ho
    · intro i j insi insj s oi oj hi hj hoi hoj
      obtain ⟨n, hn, ho⟩ := hpend i insi s hi
      obtain ⟨n2, hn2, ho2⟩ := hpend j insj s hj
      rw [hn] at hn2
      injection hn2 with hn2
      subst hn2
      rw [hoi] at ho
      rw [hoj] at ho2
      injection ho with ho
      injection ho2 with ho2
      have h1 : oi = some (Int.ofNat n) := congrArg Prod.snd ho
      have h2 : oj = some (Int.ofNat n) := congrArg Prod.snd ho2
      rw [h1, h2]

/-- C1 witness: declaring `skip:` after one collected instruction binds skip
to index 1, and resolving a reference against that binding keeps the
instruction count. -/
theorem c1_witness :
    pass1Step ⟨[], [(Instruction.JMP, Operand.pending ("skip").data)]⟩ (("skip:").data) =
      .ok ⟨[(("skip").data, 1)], [(Instruction.JMP, Operand.pending ("skip").data)]⟩ ∧
    ([(Instruction.JMP, Option.some (Int.ofNat 1))] : Program).length =
      [(Instruction.JMP, Operand.pending ("skip").data)].length :=
  ⟨(c1_label_binding_and_resolution.1
      ⟨[], [(Instruction.JMP, Operand.pending ("skip").data)]⟩
      (("skip:").data) (("skip").data) rfl).1,
   (c1_label_binding_and_resolution.2 [(("skip").data, 1)]
      [(Instruction.JMP, Operand.pending ("skip").data)]
      [(Instruction.JMP, Option.some (Int.ofNat 1))] rfl).1⟩

/-- Inversion of parse_line errors: an UnknownInstruction error names the
uppercased first token and that token is outside the mnemonic table, and an
InvalidOperand error names a second token that is neither purely alphabetic
nor a valid integer literal. -/
theorem parse_line_error_cases (line : List Char) (e : CompileError)
    (h : parse_line line = .error e) :
    (∃ t, e = .unknownInstruction t ∧ alookup instruction_map t = Option.none ∧
      ∃ first rest, splitWs (stripC (line.takeWhile (fun c => c ≠ ';'))) = first :: rest ∧
        t = upperC first) ∨
    (∃ t, e = .invalidOperand t ∧ isAlphaTok t = false ∧ pyInt t = Option.none) := by
  simp only [parse_line] at h
  split at h
  · cases h
  · split at h
    · cases h
    · split at h
      · cases h
      · rename_i first restParts hsplit
        split at h
        · rename_i hlook
          injection h with h
          subst h
          exact Or.inl ⟨_, rfl, hlook, first, restParts, hsplit, rfl⟩
        · split at h
          · cases h
          · split at h
            · cases h
            · rename_i opstr rest2 halpha
              split at h
              · cases h
              · rename_i hpy
                injection h with h
                subst h
                refine Or.inr ⟨_, rfl, ?_, hpy⟩
                simpa using halpha

/-- parse_line never reports an undefined label: that error belongs to the
resolution pass alone. -/
theorem parse_line_no_undefined (line : List Char) (name : List Char) :
    parse_line line ≠ .error (.undefinedLabel name) := by
  intro h
  rcases parse_line_error_cases line _ h with ⟨t, ht, -⟩ | ⟨t, ht, -⟩ <;> cases ht

/-- The collection pass never reports an undefined label either. -/
theorem pass1_no_undefined :
    ∀ (lines : List (List Char)) (st : Pass1State) (name : List Char),
      pass1 lines st ≠ .error (.undefinedLabel name) := by
  intro lines
  induction lines with
  | nil =>
    intro st name h
    cases h
  | cons l ls ih =>
    intro st name h
    simp only [pass1] at h
    cases hs : pass1Step st l with
    | error e =>
      rw [hs] at h
      injection h with h
      subst h
      simp only [pass1Step] at hs
      cases hp : parse_line l with
      | error e2 =>
        rw [hp] at hs
        injection hs with hs
        subst hs
        exact parse_line_no_undefined l name hp
      | ok p =>
        rw [hp] at hs
        cases p <;> cases hs
    | ok st2 =>
      rw [hs] at h
      exact ih st2 name h

/-- Inversion of resolveOp errors: only a pending reference absent from the
label table fails, with an UndefinedLabel error naming that reference. -/
theorem resolveOp_error_undefined (labels : List (List Char × Nat)) (op : Operand)
    (e : CompileError) (h : resolveOp labels op = .error e) :
    ∃ s2, op = Operand.pending s2 ∧ e = .undefinedLabel s2 ∧
      alookup labels s2 = Option.none := by
  cases op with
  | absent => cases h
  | num n => cases h
  | pending s2 =>
    simp only [resolveOp] at h
    split at h
    · cases h
    · rename_i hlook
      injection h with h
      subst h
      exact ⟨s2, rfl, rfl, hlook⟩

/-- Inversion of resolution-pass errors: the failure is an UndefinedLabel
naming a symbol that some collected instruction references as a pending
operand and that the final label table does not bind. -/
theorem pass2_error_undefined (labels : List (List Char × Nat)) :
    ∀ (raw : List (Instruction × Operand)) (e : CompileError),
      pass2 labels raw = .error e →
      ∃ s2, e = .undefinedLabel s2 ∧ alookup labels s2 = Option.none ∧
        ∃ (i : Nat), ∃ ins, raw[i]? = some (ins, Operand.pending s2) := by
  intro raw
  induction raw with
  | nil =>
    intro e h
    cases h
  | cons hd rest ih =>
    intro e h
    obtain ⟨i0, op0⟩ := hd
    simp only [pass2] at h
    cases hr : resolveOp labels op0 with
    | error e2 =>
      rw [hr] at h
      injection h with h
      subst h
      obtain ⟨s2, hop, he2, hlook⟩ := resolveOp_error_undefined labels op0 e2 hr
      subst hop
      exact ⟨s2, he2, hlook, 0, i0, by simp⟩
    | ok r =>
      rw [hr] at h
      cases hp : pass2 labels rest with
      | error e2 =>
        rw [hp] at h
        injection h with h
        subst h
        obtain ⟨s2, he, hlook, i, ins, hi⟩ := ih e2 hp
        exact ⟨s2, he, hlook, i + 1, ins, by simpa using hi⟩
      | ok rs =>
        rw [hp] at h
        cases h

/-- C4: compilation is atomic — every source either yields a Program or one
error value, never both — and each error kind names its offending token: an
UnknownInstruction token is outside the 15-mnemonic table (after the
case-insensitive uppercasing), an InvalidOperand token is neither purely
alphabetic nor a valid integer, and an UndefinedLabel symbol is referenced
by a collected instruction yet bound nowhere in the final label table. -/
theorem c4_compile_errors_name_offender :
    (∀ line t, parse_line line = .error (.unknownInstruction t) →
      alookup instruction_map t = Option.none) ∧
    (∀ line t, parse_line line = .error (.invalidOperand t) →
      isAlphaTok t = false ∧ pyInt t = Option.none) ∧
    (∀ src name, compileL src = .error (.undefinedLabel name) →
      ∃ st, pass1 (splitlinesL src []) ⟨[], []⟩ = .ok st) ∧
    (∀ src name st, compileL src = .error (.undefinedLabel name) →
      pass1 (splitlinesL src []) ⟨[], []⟩ = .ok st →
      alookup st.labels name = Option.none ∧
      ∃ (i : Nat), ∃ ins, st.instrs[i]? = some (ins, Operand.pending name)) ∧
    (∀ src, (∃ p, compileL src = .ok p) ∨ (∃ e, compileL src = .error e)) ∧
    compileL (("FOO 1").data) = .error (.unknownInstruction (("FOO").data)) ∧
    compileL (("PUSH 1a").data) = .error (.invalidOperand (("1a").data)) ∧
    compileL (("JMP nowhere\nHALT").data) = .error (.undefinedLabel (("nowhere").data)) := by
  refine ⟨?_, ?_, ?_, ?_, ?_, rfl, rfl, rfl⟩
  · intro line t h
    rcases parse_line_error_cases line _ h with ⟨t2, ht, hlook, -⟩ | ⟨t2, ht, -⟩
    · injection ht with ht
      subst ht
      exact hlook
    · cases ht
  · intro line t h
    rcases parse_line_error_cases line _ h with ⟨t2, ht, -⟩ | ⟨t2, ht, ha, hpy⟩
    · cases ht
    · injection ht with ht
      subst ht
      exact ⟨ha, hpy⟩
  · intro src name h
    simp only [compileL] at h
    cases hp : pass1 (splitlinesL src []) ⟨[], []⟩ with
    | error e =>
      rw [hp] at h
      injection h with h
      subst h
      exact absurd hp (pass1_no_undefined _ _ _)
    | ok st => exact ⟨st, rfl⟩
  · intro src name st h hp
    simp only [compileL] at h
    rw [hp] at h
    obtain ⟨s2, he, hlook, i, ins, hi⟩ := pass2_error_undefined st.labels st.instrs _ h
    injection he with he
    subst he
    exact ⟨hlook, i, ins, hi⟩
  · intro src
    cases h : compileL src with
    | ok p => exact Or.inl ⟨p, rfl⟩
    | error e => exact Or.inr ⟨e, rfl⟩

/-- C4 witness: FOO is outside the mnemonic table, 1a is neither alphabetic
nor an integer, and nowhere is referenced but unbound in the label table the
collection pass produced for JMP nowhere; HALT. -/
theorem c4_witness :
    alookup instruction_map (("FOO").data) = Option.none ∧
    isAlphaTok (("1a").data) = false ∧ pyInt (("1a").data) = Option.none ∧
    alookup (⟨[], [(Instruction.JMP, Operand.pending ("nowhere").data),
                   (Instruction.HALT, Operand.absent)]⟩ : Pass1State).labels
      (("nowhere").data) = Option.none :=
  ⟨c4_compile_errors_name_offender.1 (("FOO 1").data) (("FOO").data) rfl,
   (c4_compile_errors_name_offender.2.1 (("PUSH 1a").data) (("1a").data) rfl).1,
   (c4_compile_errors_name_offender.2.1 (("PUSH 1a").data) (("1a").data) rfl).2,
   (c4_compile_errors_name_offender.2.2.2.1 (("JMP nowhere\nHALT").data)
      (("nowhere").data)
      ⟨[], [(Instruction.JMP, Operand.pending ("nowhere").data),
            (Instruction.HALT, Operand.absent)]⟩ rfl rfl).1⟩

/-- A digit is not an alphabetic character (ASCII ranges are disjoint). -/
theorem isDigit_not_isAlpha {c : Char} (h : c.isDigit = true) : c.isAlpha = false := by
  simp only [Char.isDigit, Char.isAlpha, Char.isUpper, Char.isLower,
    Bool.and_eq_true, decide_eq_true_eq, Bool.or_eq_false_iff, Bool.and_eq_false_iff,
    decide_eq_false_iff_not, not_le, ge_iff_le, UInt32.le_def, UInt32.lt_def,
    BitVec.le_def, BitVec.lt_def] at h ⊢
  rw [show (UInt32.toBitVec 48).toNat = 48 from rfl,
      show (UInt32.toBitVec 57).toNat = 57 from rfl] at h
  rw [show (UInt32.toBitVec 65).toNat = 65 from rfl,
      show (UInt32.toBitVec 90).toNat = 90 from rfl,
      show (UInt32.toBitVec 97).toNat = 97 from rfl,
      show (UInt32.toBitVec 122).toNat = 122 from rfl]
  omega

/-- A word character is never one of the six whitespace characters. -/
theorem wordC_not_space {c : Char} (h : isWordC c = true) : isSpaceC c = false := by
  cases hs : isSpaceC c
  · rfl
  · exfalso
    simp only [isSpaceC, Bool.or_eq_true, beq_iff_eq] at hs
    rcases hs with ((((h1 | h1) | h1) | h1) | h1) | h1 <;> subst h1 <;>
      exact absurd h (by decide)

/-- A word character is neither the comment nor the label delimiter. -/
theorem wordC_ne {c : Char} (h : isWordC c = true) : c ≠ ';' ∧ c ≠ ':' := by
  constructor <;> intro heq <;> subst heq <;> exact absurd h (by decide)

/-- takeWhile keeps a list all of whose elements satisfy the test. -/
theorem takeWhile_eq_self_of_all {p : Char → Bool} :
    ∀ {xs : List Char}, (∀ c ∈ xs, p c = true) → xs.takeWhile p = xs := by
  intro xs
  induction xs with
  | nil => intro _; rfl
  | cons c rest ih =>
    intro h
    rw [List.takeWhile_cons, if_pos (h c (by simp))]
    rw [ih (fun d hd => h d (by simp [hd]))]

/-- takeWhile stops exactly at a final element failing the test. -/
theorem takeWhile_append_last {p : Char → Bool} {y : Char} :
    ∀ {xs : List Char}, (∀ c ∈ xs, p c = true) → p y = false →
      (xs ++ [y]).takeWhile p = xs := by
  intro xs
  induction xs with
  | nil => intro _ hy; simp [List.takeWhile_cons, hy]
  | cons c rest ih =>
    intro h hy
    simp only [List.cons_append, List.takeWhile_cons, if_pos (h c (by simp))]
    rw [ih (fun d hd => h d (by simp [hd])) hy]

/-- Stripping does nothing when both ends of the line are not whitespace. -/
theorem stripC_eq_self {l : List Char}
    (h1 : ∀ c, l.head? = some c → isSpaceC c = false)
    (h2 : ∀ c, l.getLast? = some c → isSpaceC c = false) :
    stripC l = l := by
  have e1 : l.dropWhile isSpaceC = l := by
    cases l with
    | nil => rfl
    | cons c rest =>
      rw [List.dropWhile_cons, if_neg]
      simp [h1 c rfl]
  have e2 : l.reverse.dropWhile isSpaceC = l.reverse := by
    cases hr : l.reverse with
    | nil => rfl
    | cons c rest =>
      rw [List.dropWhile_cons, if_neg]
      have hc : l.getLast? = some c := by
        rw [← List.head?_reverse, hr]
        rfl
      simp [h2 c hc]
  rw [stripC, e1, e2, List.reverse_reverse]

/-- Splitting on whitespace yields one token when no whitespace occurs. -/
theorem splitWsAux_no_space :
    ∀ (name acc : List Char), (∀ c ∈ name, isSpaceC c = false) →
      (acc ≠ [] ∨ name ≠ []) → splitWsAux name acc = [acc.reverse ++ name] := by
  intro name
  induction name with
  | nil =>
    intro acc _ hne
    rcases hne with h | h
    · simp only [splitWsAux]
      rw [if_neg]
      · simp
      · simpa using h
    · exact absurd rfl h
  | cons c rest ih =>
    intro acc hns _
    simp only [splitWsAux]
    rw [if_neg (by simp [hns c (by simp)])]
    rw [ih (c :: acc) (fun d hd => hns d (by simp [hd])) (Or.inl (by simp))]
    simp

/-- Splitting `JMP <token>` yields exactly the mnemonic and the token. -/
theorem splitWs_jmp_name {name : List Char} (hns : ∀ c ∈ name, isSpaceC c = false)
    (hne : name ≠ []) :
    splitWs (("JMP ").data ++ name) = [("JMP").data, name] := by
  show splitWsAux ('J' :: 'M' :: 'P' :: ' ' :: name) [] = _
  rw [splitWsAux, if_neg (by decide)]
  rw [splitWsAux, if_neg (by decide)]
  rw [splitWsAux, if_neg (by decide)]
  rw [splitWsAux, if_pos (by decide), if_neg (by decide)]
  rw [splitWsAux_no_space name [] hns (Or.inr hne)]
  rfl

/-- C10 counterexample: the label name 10 contains a digit, its declaration
is accepted (binding 10 to index 0), yet JMP 10 does not fail with
InvalidOperand — the token parses as the integer 10, so the whole source
compiles, with the operand bypassing the label table entirely. -/
theorem c10_counterexample :
    (("10").data.any (fun c => c.isDigit || c == '_') = true) ∧
    parse_line (("10:").data) = .ok (.label (("10").data)) ∧
    pass1 (splitlinesL (("10:\nJMP 10\nHALT").data) []) ⟨[], []⟩ =
      .ok ⟨[(("10").data, 0)], [(Instruction.JMP, Operand.num 10),
                                (Instruction.HALT, Operand.absent)]⟩ ∧
    compileL (("10:\nJMP 10\nHALT").data) =
      .ok [(Instruction.JMP, some 10), (Instruction.HALT, Option.none)] :=
  ⟨rfl, rfl, rfl, rfl⟩

/-- C10 (amended): a label declaration accepts any word-character name, but
an operand token is a pending label reference only when purely alphabetic;
hence a label name containing a digit or underscore that the integer parser
rejects (such as loop1) can be declared yet never referenced — the
reference fails with InvalidOperand; a name the integer parser accepts
(such as 10) instead compiles as a numeric operand, never resolving to the
label. -/
theorem c10_digit_underscore_labels_unreferencable :
    ∀ name : List Char, name ≠ [] → (∀ c ∈ name, isWordC c = true) →
      (∃ c ∈ name, c.isDigit = true ∨ c = '_') → pyInt name = Option.none →
      parse_line (name ++ [':']) = .ok (.label name) ∧
      parse_line (("JMP ").data ++ name) = .error (.invalidOperand name) := by
  intro name hne hword hdig hpy
  have hnospace : ∀ c ∈ name, isSpaceC c = false := fun c hc => wordC_not_space (hword c hc)
  have halpha : isAlphaTok name = false := by
    obtain ⟨c, hc, hcase⟩ := hdig
    have hall : name.all Char.isAlpha = false := by
      rcases hcase with hd | hu
      · exact List.all_eq_false.mpr ⟨c, hc, by simp [isDigit_not_isAlpha hd]⟩
      · subst hu
        exact List.all_eq_false.mpr ⟨'_', hc, by decide⟩
    simp [isAlphaTok, hall]
  constructor
  · have ht : (name ++ [':']).takeWhile (fun c => c ≠ ';') = name ++ [':'] := by
      apply takeWhile_eq_self_of_all
      intro c hc
      rcases List.mem_append.mp hc with h | h
      · exact decide_eq_true ((wordC_ne (hword c h)).1)
      · simp only [List.mem_singleton] at h
        subst h
        decide
    have hs : stripC (name ++ [':']) = name ++ [':'] := by
      apply stripC_eq_self
      · intro c hc
        cases name with
        | nil => exact absurd rfl hne
        | cons c0 rest =>
          simp only [List.cons_append, List.head?_cons, Option.some.injEq] at hc
          subst hc
          exact wordC_not_space (hword c0 (by simp))
      · intro c hc
        rw [List.getLast?_concat] at hc
        injection hc with hc
        subst hc
        decide
    have hw : (name ++ [':']).takeWhile isWordC = name :=
      takeWhile_append_last hword (by decide)
    have hlen1 : 1 ≤ name.length := List.length_pos.mpr hne
    have hgetc : (name ++ [':'])[name.length]? = some ':' :=
      List.getElem?_concat_length name ':'
    have hemp : (name ++ [':']).isEmpty = false := by
      cases name <;> rfl
    simp only [parse_line, ht, hs, hw, hemp, hgetc, hlen1, ge_iff_le, Bool.false_eq_true,
      if_false, Option.some.injEq, and_true, if_true, iff_true, true_and]
  · have ht2 : (("JMP ").data ++ name).takeWhile (fun c => c ≠ ';') =
        ("JMP ").data ++ name := by
      apply takeWhile_eq_self_of_all
      intro c hc
      rcases List.mem_append.mp hc with h | h
      · have : ∀ d ∈ ("JMP ").data, decide (d ≠ ';') = true := by decide
        exact this c h
      · exact decide_eq_true ((wordC_ne (hword c h)).1)
    have hs2 : stripC (("JMP ").data ++ name) = ("JMP ").data ++ name := by
      apply stripC_eq_self
      · intro c hc
        have : c = 'J' := by
          have hh : (("JMP ").data ++ name).head? = some 'J' := rfl
          rw [hh] at hc
          injection hc with hc
          exact hc.symm
        subst this
        decide
      · intro c hc
        rw [List.getLast?_append] at hc
        cases hg : name.getLast? with
        | none =>
          exact absurd (List.getLast?_eq_none_iff.mp hg) hne
        | some d =>
          rw [hg] at hc
          injection hc with hc
          subst hc
          have hd : d ∈ name := by
            obtain ⟨hne2, he⟩ := List.mem_getLast?_eq_getLast (Option.mem_def.mpr hg)
            rw [he]
            exact List.getLast_mem hne2
          exact hnospace d hd
    have hw2 : (("JMP ").data ++ name).takeWhile isWordC = ("JMP").data := by
      show (('J' :: 'M' :: 'P' :: ' ' :: name).takeWhile isWordC) = _
      rw [List.takeWhile_cons, if_pos (by decide), List.takeWhile_cons, if_pos (by decide),
          List.takeWhile_cons, if_pos (by decide), List.takeWhile_cons, if_neg (by decide)]
    have hget3 : (("JMP ").data ++ name)[(("JMP").data).length]? = some ' ' := by
      show (('J' :: 'M' :: 'P' :: ' ' :: name))[3]? = some ' '
      simp
    have hsplit2 : splitWs (("JMP ").data ++ name) = [("JMP").data, name] :=
      splitWs_jmp_name hnospace hne
    have hlook : alookup instruction_map (upperC (("JMP").data)) =
        Option.some Instruction.JMP := rfl
    have hcol : ¬ ((' ' : Char) = ':') := by decide
    have hemp2 : (("JMP ").data ++ name).isEmpty = false := rfl
    simp only [parse_line, ht2, hs2, hw2, hemp2, hget3, hsplit2, hlook, halpha, hpy,
      Bool.false_eq_true, if_false, Option.some.injEq, hcol, and_false, ge_iff_le]


/-- C10 witness: loop1 is a word-character name containing a digit that the
integer parser rejects; declaring it succeeds and referencing it fails with
InvalidOperand. -/
theorem c10_witness :
    parse_line (("loop1").data ++ [':']) = .ok (.label (("loop1").data)) ∧
    parse_line (("JMP ").data ++ ("loop1").data) =
      .error (.invalidOperand (("loop1").data)) :=
  c10_digit_underscore_labels_unreferencable (("loop1").data)
    (by decide) (by decide) (by decide) (by decide)

end AsmVM
